import Mathlib

/-!
Shallow embedding of the flanger audio kernel (`Kernel.hpp`): per-channel
delay lines, the shared triangle LFO, the tap calculators and the per-block
render loop `doRendering`.  Audio samples and parameter values are modelled
as rationals; an input block is a frame-major list, each frame holding one
sample per channel.  The `DSPHeaders` collaborators (delay buffer, LFO,
smoothed parameters) are not part of this repository's sources, so they are
modelled from the specification, as marked on each definition.
-/

/-- Modelled from the spec: the `DSPHeaders::DelayBuffer` ring of audio
samples (its implementation is outside this repository's sources).  The ring
holds `buffer.length` samples and `writeIndex` is the cursor of the next
write. -/
structure DelayLine where
  buffer : List ℚ
  writeIndex : Nat
deriving DecidableEq

/-- Modelled from the spec: `write(sample)` stores the sample at the current
write cursor and advances the cursor, wrapping at the capacity. -/
def DelayLine.write (d : DelayLine) (s : ℚ) : DelayLine :=
  { buffer := d.buffer.set d.writeIndex s
    writeIndex := (d.writeIndex + 1) % d.buffer.length }

/-- The sample `k` positions before the most recently written one. -/
def DelayLine.sampleAt (d : DelayLine) (k : ℤ) : ℚ :=
  d.buffer.getD (((d.writeIndex : ℤ) - 1 - k) % (d.buffer.length : ℤ)).toNat 0

/-- Modelled from the spec: `read(delaySamples)` clamps the tap to
`[0, capacity − 1]` and linearly interpolates between the two neighbouring
integer taps, counting backwards from the most recently written sample. -/
def DelayLine.read (d : DelayLine) (delaySamples : ℚ) : ℚ :=
  let t := min (max delaySamples 0) ((d.buffer.length : ℚ) - 1)
  let whole : ℤ := ⌊t⌋
  let frac : ℚ := t - whole
  (1 - frac) * d.sampleAt whole + frac * d.sampleAt (whole + 1)

/-- A delay line whose storage is all silence. -/
def DelayLine.IsZero (d : DelayLine) : Prop := ∀ x ∈ d.buffer, x = 0

instance (d : DelayLine) : Decidable d.IsZero := by
  unfold DelayLine.IsZero; infer_instance

/-- Modelled from the spec: the `DSPHeaders::DelayBuffer` constructor takes a
(possibly fractional) size and allocates `⌈size⌉` zeroed entries, with the
write cursor reset. -/
def DelayLine.allocate (size : ℚ) : DelayLine :=
  { buffer := List.replicate ⌈size⌉.toNat 0, writeIndex := 0 }

/-- Modelled from the spec: triangle-wave value at a phase, in `[−1, +1]`
(`1 − 4·|phase − 0.5|`). -/
def triangleValue (phase : ℚ) : ℚ := 1 - 4 * |phase - 1/2|

/-- Modelled from the spec: the `DSPHeaders::LFO` oscillator state (its
implementation is outside this repository's sources). -/
structure LFO where
  phase : ℚ
  frequency : ℚ
  sampleRate : ℚ
deriving DecidableEq

/-- Modelled from the spec: the triangle value at the current phase. -/
def LFO.value (l : LFO) : ℚ := triangleValue l.phase

/-- Modelled from the spec: the value a quarter cycle ahead of the current
phase, wrapped into `[0, 1)`. -/
def LFO.quadPhaseValue (l : LFO) : ℚ := triangleValue (Int.fract (l.phase + 1/4))

/-- Modelled from the spec: advance the phase by `frequency / sampleRate`,
wrapping into `[0, 1)`. -/
def LFO.increment (l : LFO) : LFO :=
  { l with phase := Int.fract (l.phase + l.frequency / l.sampleRate) }

/-- Modelled from the spec: the smoothed-parameter interface the kernel
consumes.  `frameValue` is what the per-sample ramp accessor yields for the
one frame of a ramp-regime render call; `finalValue` is the block-end value,
stable for the whole block. -/
structure SmoothedParam where
  frameValue : ℚ
  finalValue : ℚ
deriving DecidableEq

/-- The parameters `doRendering` reads: five smoothed scalars plus the two
booleans, which are read from their immediate values. -/
structure Params where
  delay : SmoothedParam
  depth : SmoothedParam
  feedback : SmoothedParam
  wetMix : SmoothedParam
  dryMix : SmoothedParam
  negativeFeedback : Bool
  odd90 : Bool
deriving DecidableEq

/-- The kernel state that persists across render calls: one delay line per
channel, the shared LFO, and the configuration constants. -/
structure Kernel where
  samplesPerMillisecond : ℚ
  maxDelayMilliseconds : ℚ
  delayLines : List DelayLine
  lfo : LFO
deriving DecidableEq

/-- `initialize` (reached through `setRenderingFormat`): stores
`maxDelayMilliseconds`, sets `samplesPerMillisecond = sampleRate / 1000`,
passes the sample rate to the LFO, and allocates `channelCount` delay lines
of size `maxDelayMilliseconds * samplesPerMillisecond + 1` each. -/
def configure (k : Kernel) (channelCount : Nat) (sampleRate maxDelayMilliseconds : ℚ) : Kernel :=
  let spm := sampleRate / 1000
  let size := maxDelayMilliseconds * spm + 1
  { samplesPerMillisecond := spm
    maxDelayMilliseconds := maxDelayMilliseconds
    delayLines := List.replicate channelCount (DelayLine.allocate size)
    lfo := { k.lfo with sampleRate := sampleRate } }

/-- `writeSample`: one frame across all channels.  `channel` is the loop
counter; an odd-indexed channel reads its line at `oddTap`, an even-indexed
one at `evenTap`; each channel writes `input + feedback * delayed` back into
its line and outputs `wetMix * delayed + dryMix * input`.  (`feedback` here
is the already-signed value the caller computed.) -/
def writeSample (channel : Nat) (lines : List DelayLine) (frame : List ℚ)
    (evenTap oddTap feedback wetMix dryMix : ℚ) : List DelayLine × List ℚ :=
  match lines, frame with
  | line :: restLines, inputSample :: restFrame =>
      let delayedSample := DelayLine.read line (if channel % 2 = 1 then oddTap else evenTap)
      let line' := DelayLine.write line (inputSample + feedback * delayedSample)
      let rest := writeSample (channel + 1) restLines restFrame evenTap oddTap feedback wetMix dryMix
      (line' :: rest.1, (wetMix * delayedSample + dryMix * inputSample) :: rest.2)
  | lines, _ => (lines, [])

/-- `calcSingleTap`: one tap from the LFO value, used for both parities; the
LFO is advanced once. -/
def calcSingleTap (lfo : LFO) (spm nominalMilliseconds displacementMilliseconds : ℚ) :
    ℚ × ℚ × LFO :=
  let tap := (nominalMilliseconds + lfo.value * displacementMilliseconds) * spm
  (tap, tap, lfo.increment)

/-- `calcDoubleTap`: the even tap from the LFO value and the odd tap from the
quadrature value; the LFO is advanced once. -/
def calcDoubleTap (lfo : LFO) (spm nominalMilliseconds displacementMilliseconds : ℚ) :
    ℚ × ℚ × LFO :=
  let evenTap := (nominalMilliseconds + lfo.value * displacementMilliseconds) * spm
  let oddTap := (nominalMilliseconds + lfo.quadPhaseValue * displacementMilliseconds) * spm
  (evenTap, oddTap, lfo.increment)

/-- `calcCenterVariance`: `variance = (maxDelayMilliseconds − delay) · depth / 2`
and `center = delay + variance`. -/
def calcCenterVariance (maxDelayMilliseconds delay depth : ℚ) : ℚ × ℚ :=
  let variance := (maxDelayMilliseconds - delay) * depth / 2
  (delay + variance, variance)

/-- The block-regime inner loop of `doRendering`: for each frame compute the
tap pair (advancing the LFO once per frame) and run `writeSample`.  The
`odd90` flag is fixed for the whole loop, matching the source's two `while`
loops selected once per block. -/
def renderLoop (spm center variance feedback wetMix dryMix : ℚ) (odd90 : Bool) :
    List DelayLine → LFO → List (List ℚ) → List DelayLine × LFO × List (List ℚ)
  | lines, lfo, [] => (lines, lfo, [])
  | lines, lfo, frame :: rest =>
      let t := if odd90 then calcDoubleTap lfo spm center variance
               else calcSingleTap lfo spm center variance
      let r := writeSample 0 lines frame t.1 t.2.1 feedback wetMix dryMix
      let next := renderLoop spm center variance feedback wetMix dryMix odd90 r.1 t.2.2 rest
      (next.1, next.2.1, r.2 :: next.2.2)

/-- `doRendering`: one render call on a frame-major block.  A one-frame block
reads the scalars through their per-sample ramp accessors; any other block
reads the block-final values once and loops.  `odd90` is read once per call
from its immediate value.  An empty block takes the second branch and its
loop body never runs. -/
def doRendering (k : Kernel) (p : Params) (frames : List (List ℚ)) :
    Kernel × List (List ℚ) :=
  let odd90 := p.odd90
  match frames with
  | [frame] =>
      let delay := p.delay.frameValue
      let depth := p.depth.frameValue
      let feedback := (if p.negativeFeedback then (-1 : ℚ) else 1) * p.feedback.frameValue
      let cv := calcCenterVariance k.maxDelayMilliseconds delay depth
      let t := if odd90 then calcDoubleTap k.lfo k.samplesPerMillisecond cv.1 cv.2
               else calcSingleTap k.lfo k.samplesPerMillisecond cv.1 cv.2
      let r := writeSample 0 k.delayLines frame t.1 t.2.1 feedback
                 p.wetMix.frameValue p.dryMix.frameValue
      ({ k with delayLines := r.1, lfo := t.2.2 }, [r.2])
  | _ =>
      let delay := p.delay.finalValue
      let depth := p.depth.finalValue
      let feedback := (if p.negativeFeedback then (-1 : ℚ) else 1) * p.feedback.finalValue
      let wetMix := p.wetMix.finalValue
      let dryMix := p.dryMix.finalValue
      let cv := calcCenterVariance k.maxDelayMilliseconds delay depth
      let r := renderLoop k.samplesPerMillisecond cv.1 cv.2 feedback wetMix dryMix odd90
                 k.delayLines k.lfo frames
      ({ k with delayLines := r.1, lfo := r.2.1 }, r.2.2)

/-- A sequence of render calls against the persisting kernel state. -/
def renderSequence (k : Kernel) :
    List (Params × List (List ℚ)) → Kernel × List (List (List ℚ))
  | [] => (k, [])
  | (p, frames) :: rest =>
      let r := doRendering k p frames
      let next := renderSequence r.1 rest
      (next.1, r.2 :: next.2)

/-- The default delay line used with `List.getD`. -/
def noLine : DelayLine := { buffer := [], writeIndex := 0 }

theorem writeSample_fst_length (channel : Nat) (lines : List DelayLine) (frame : List ℚ)
    (e o fb w d : ℚ) :
    (writeSample channel lines frame e o fb w d).1.length = lines.length := by
  induction lines generalizing channel frame with
  | nil => cases frame <;> rfl
  | cons l ls ih =>
    cases frame with
    | nil => rfl
    | cons x xs => simp [writeSample, ih]

theorem writeSample_snd_length (channel : Nat) (lines : List DelayLine) (frame : List ℚ)
    (e o fb w d : ℚ) :
    (writeSample channel lines frame e o fb w d).2.length = min lines.length frame.length := by
  induction lines generalizing channel frame with
  | nil => cases frame <;> rfl
  | cons l ls ih =>
    cases frame with
    | nil => rfl
    | cons x xs => simp [writeSample, ih, Nat.succ_min_succ]

theorem writeSample_getD (channel : Nat) (lines : List DelayLine) (frame : List ℚ)
    (e o fb w d : ℚ) (ch : Nat) (hch1 : ch < lines.length) (hch2 : ch < frame.length) :
    (writeSample channel lines frame e o fb w d).2.getD ch 0 =
      w * (lines.getD ch noLine).read (if (channel + ch) % 2 = 1 then o else e) +
        d * frame.getD ch 0 ∧
    (writeSample channel lines frame e o fb w d).1.getD ch noLine =
      (lines.getD ch noLine).write (frame.getD ch 0 +
        fb * (lines.getD ch noLine).read (if (channel + ch) % 2 = 1 then o else e)) := by
  induction lines generalizing channel frame ch with
  | nil => simp at hch1
  | cons l ls ih =>
    cases frame with
    | nil => simp at hch2
    | cons x xs =>
      cases ch with
      | zero => simp [writeSample]
      | succ n =>
        have h1 : n < ls.length := by simpa using hch1
        have h2 : n < xs.length := by simpa using hch2
        have := ih (channel + 1) xs n h1 h2
        simpa [writeSample, Nat.add_assoc, Nat.add_comm 1 n] using this

theorem writeSample_oddTap_irrelevant (lines : List DelayLine) (frame : List ℚ)
    (e o o' fb w d : ℚ) (h : lines.length ≤ 1) :
    writeSample 0 lines frame e o fb w d = writeSample 0 lines frame e o' fb w d := by
  cases lines with
  | nil => cases frame <;> rfl
  | cons l ls =>
    cases ls with
    | cons l2 ls2 => simp at h
    | nil =>
      cases frame with
      | nil => rfl
      | cons x xs => simp [writeSample]

theorem getD_eq_zero_of_forall_zero (l : List ℚ) (i : Nat) (h : ∀ x ∈ l, x = 0) :
    l.getD i 0 = 0 := by
  induction l generalizing i with
  | nil => simp
  | cons a t ih =>
    cases i with
    | zero => simpa using h a (by simp)
    | succ n => exact ih n fun x hx => h x (by simp [hx])

theorem DelayLine.read_of_isZero (d : DelayLine) (h : d.IsZero) (t : ℚ) : d.read t = 0 := by
  unfold DelayLine.read DelayLine.sampleAt
  simp only [getD_eq_zero_of_forall_zero _ _ h]
  ring

theorem DelayLine.write_isZero (d : DelayLine) (h : d.IsZero) : (d.write 0).IsZero := by
  intro x hx
  unfold DelayLine.write at hx
  simp only at hx
  rcases List.mem_or_eq_of_mem_set hx with h1 | h1
  · exact h x h1
  · exact h1

theorem writeSample_zero (channel : Nat) (lines : List DelayLine) (frame : List ℚ)
    (e o fb w d : ℚ) (hl : ∀ line ∈ lines, line.IsZero) (hf : ∀ x ∈ frame, x = 0) :
    (∀ line ∈ (writeSample channel lines frame e o fb w d).1, line.IsZero) ∧
    (∀ x ∈ (writeSample channel lines frame e o fb w d).2, x = 0) := by
  induction lines generalizing channel frame with
  | nil => cases frame <;> exact ⟨hl, by simp [writeSample]⟩
  | cons l ls ih =>
    cases frame with
    | nil => exact ⟨hl, by simp [writeSample]⟩
    | cons x xs =>
      have hlz : l.IsZero := hl l (by simp)
      have hx : x = 0 := hf x (by simp)
      have hrd : l.read (if channel % 2 = 1 then o else e) = 0 :=
        DelayLine.read_of_isZero l hlz _
      have hrest := ih (channel + 1) xs (fun line hline => hl line (by simp [hline]))
        (fun y hy => hf y (by simp [hy]))
      constructor
      · intro line hline
        simp only [writeSample, List.mem_cons] at hline
        rcases hline with h1 | h1
        · subst h1
          have : x + fb * l.read (if channel % 2 = 1 then o else e) = 0 := by
            rw [hx, hrd]; ring
          rw [this]
          exact DelayLine.write_isZero l hlz
        · exact hrest.1 line h1
      · intro y hy
        simp only [writeSample, List.mem_cons] at hy
        rcases hy with h1 | h1
        · rw [h1, hx, hrd]; ring
        · exact hrest.2 y h1

theorem renderLoop_fst_length (spm c v fb w d : ℚ) (odd90 : Bool)
    (lines : List DelayLine) (lfo : LFO) (frames : List (List ℚ)) :
    (renderLoop spm c v fb w d odd90 lines lfo frames).1.length = lines.length := by
  induction frames generalizing lines lfo with
  | nil => rfl
  | cons f rest ih => simp [renderLoop, ih, writeSample_fst_length]

theorem renderLoop_zero (spm c v fb w d : ℚ) (odd90 : Bool)
    (lines : List DelayLine) (lfo : LFO) (frames : List (List ℚ))
    (hl : ∀ line ∈ lines, line.IsZero) (hf : ∀ f ∈ frames, ∀ x ∈ f, x = 0) :
    (∀ line ∈ (renderLoop spm c v fb w d odd90 lines lfo frames).1, line.IsZero) ∧
    (∀ out ∈ (renderLoop spm c v fb w d odd90 lines lfo frames).2.2, ∀ x ∈ out, x = 0) := by
  induction frames generalizing lines lfo with
  | nil => exact ⟨hl, by simp [renderLoop]⟩
  | cons f rest ih =>
    have hstep := writeSample_zero 0 lines f
      (if odd90 then calcDoubleTap lfo spm c v else calcSingleTap lfo spm c v).1
      (if odd90 then calcDoubleTap lfo spm c v else calcSingleTap lfo spm c v).2.1
      fb w d hl (hf f (by simp))
    have hrest := ih _
      (if odd90 then calcDoubleTap lfo spm c v else calcSingleTap lfo spm c v).2.2
      hstep.1 (fun g hg => hf g (by simp [hg]))
    refine ⟨hrest.1, ?_⟩
    intro out hout
    simp only [renderLoop, List.mem_cons] at hout
    rcases hout with h1 | h1
    · rw [h1]; exact hstep.2
    · exact hrest.2 out h1

/-- The scalar parameter values a render call of a given frame count reads:
(delay, depth, feedback, wetMix, dryMix) through the per-sample ramp
accessors for a one-frame block, through the block-final accessors
otherwise. -/
def blockScalars (p : Params) (n : Nat) : ℚ × ℚ × ℚ × ℚ × ℚ :=
  if n = 1 then
    (p.delay.frameValue, p.depth.frameValue, p.feedback.frameValue,
      p.wetMix.frameValue, p.dryMix.frameValue)
  else
    (p.delay.finalValue, p.depth.finalValue, p.feedback.finalValue,
      p.wetMix.finalValue, p.dryMix.finalValue)

theorem doRendering_eq_renderLoop (k : Kernel) (p : Params) (frames : List (List ℚ)) :
    doRendering k p frames =
      (let s := blockScalars p frames.length
       let feedback := (if p.negativeFeedback then (-1 : ℚ) else 1) * s.2.2.1
       let cv := calcCenterVariance k.maxDelayMilliseconds s.1 s.2.1
       let r := renderLoop k.samplesPerMillisecond cv.1 cv.2 feedback s.2.2.2.1 s.2.2.2.2
                  p.odd90 k.delayLines k.lfo frames
       ({ k with delayLines := r.1, lfo := r.2.1 }, r.2.2)) := by
  match frames with
  | [] => rfl
  | [f] => simp [doRendering, renderLoop, blockScalars]
  | a :: b :: t => simp [doRendering, renderLoop, blockScalars]

theorem renderLoop_getD (spm c v fb w d : ℚ) (odd90 : Bool)
    (lines : List DelayLine) (lfo : LFO) (frames : List (List ℚ))
    (i ch : Nat) (hi : i < frames.length)
    (hch1 : ch < lines.length) (hch2 : ch < (frames.getD i []).length) :
    (let pre := renderLoop spm c v fb w d odd90 lines lfo (frames.take i)
     let t := if odd90 then calcDoubleTap pre.2.1 spm c v else calcSingleTap pre.2.1 spm c v
     let tap := if ch % 2 = 1 then t.2.1 else t.1
     let line := pre.1.getD ch noLine
     let inS := (frames.getD i []).getD ch 0
     let delayed := line.read tap
     ((renderLoop spm c v fb w d odd90 lines lfo frames).2.2.getD i []).getD ch 0 =
        w * delayed + d * inS ∧
     (renderLoop spm c v fb w d odd90 lines lfo (frames.take (i + 1))).1.getD ch noLine =
        line.write (inS + fb * delayed)) := by
  induction i generalizing lines lfo frames with
  | zero =>
    match frames with
    | [] => simp at hi
    | f :: rest =>
      have hch2' : ch < f.length := by simpa using hch2
      have h := writeSample_getD 0 lines f
        (if odd90 then calcDoubleTap lfo spm c v else calcSingleTap lfo spm c v).1
        (if odd90 then calcDoubleTap lfo spm c v else calcSingleTap lfo spm c v).2.1
        fb w d ch hch1 hch2'
      simpa [renderLoop] using h
  | succ i ih =>
    match frames with
    | [] => simp at hi
    | f :: rest =>
      have hi' : i < rest.length := by simpa using hi
      have hch2' : ch < (rest.getD i []).length := by simpa using hch2
      have hch1' : ch <
          (writeSample 0 lines f
            (if odd90 then calcDoubleTap lfo spm c v else calcSingleTap lfo spm c v).1
            (if odd90 then calcDoubleTap lfo spm c v else calcSingleTap lfo spm c v).2.1
            fb w d).1.length := by
        rw [writeSample_fst_length]; exact hch1
      have h := ih
        (writeSample 0 lines f
          (if odd90 then calcDoubleTap lfo spm c v else calcSingleTap lfo spm c v).1
          (if odd90 then calcDoubleTap lfo spm c v else calcSingleTap lfo spm c v).2.1
          fb w d).1
        (if odd90 then calcDoubleTap lfo spm c v else calcSingleTap lfo spm c v).2.2
        rest hi' hch1' hch2'
      simpa [renderLoop] using h

/-- C1: in every render call, for every frame index `i` and channel `ch`, the
output sample is `wetMix * delayed + dryMix * input`, where `delayed` is read
from channel `ch`'s delay line at the odd tap when `ch` is odd-indexed and at
the even tap when `ch` is even-indexed, and in the same iteration channel
`ch`'s delay line is written with `input + feedbackSign * feedback * delayed`,
`feedbackSign` being −1 exactly when `negativeFeedback` is set and +1
otherwise. -/
theorem doRendering_sample_formula (k : Kernel) (p : Params) (frames : List (List ℚ))
    (i ch : Nat) (hi : i < frames.length) (hch1 : ch < k.delayLines.length)
    (hch2 : ch < (frames.getD i []).length) :
    (let feedbackSign : ℚ := if p.negativeFeedback then -1 else 1
     let s := blockScalars p frames.length
     let cv := calcCenterVariance k.maxDelayMilliseconds s.1 s.2.1
     let R := renderLoop k.samplesPerMillisecond cv.1 cv.2 (feedbackSign * s.2.2.1)
                s.2.2.2.1 s.2.2.2.2 p.odd90 k.delayLines k.lfo
     let pre := R (frames.take i)
     let t := if p.odd90 then calcDoubleTap pre.2.1 k.samplesPerMillisecond cv.1 cv.2
              else calcSingleTap pre.2.1 k.samplesPerMillisecond cv.1 cv.2
     let tap := if ch % 2 = 1 then t.2.1 else t.1
     let line := pre.1.getD ch noLine
     let inS := (frames.getD i []).getD ch 0
     let delayed := line.read tap
     ((doRendering k p frames).2.getD i []).getD ch 0 =
        s.2.2.2.1 * delayed + s.2.2.2.2 * inS ∧
     (R (frames.take (i + 1))).1.getD ch noLine =
        line.write (inS + feedbackSign * s.2.2.1 * delayed) ∧
     (doRendering k p frames).1.delayLines = (R frames).1) := by
  rw [doRendering_eq_renderLoop]
  have h := renderLoop_getD k.samplesPerMillisecond
    (calcCenterVariance k.maxDelayMilliseconds (blockScalars p frames.length).1
      (blockScalars p frames.length).2.1).1
    (calcCenterVariance k.maxDelayMilliseconds (blockScalars p frames.length).1
      (blockScalars p frames.length).2.1).2
    ((if p.negativeFeedback then (-1 : ℚ) else 1) * (blockScalars p frames.length).2.2.1)
    (blockScalars p frames.length).2.2.2.1 (blockScalars p frames.length).2.2.2.2
    p.odd90 k.delayLines k.lfo frames i ch hi hch1 hch2
  exact ⟨h.1, h.2, rfl⟩

/-- C6: a render call with `frameCount == 0` is a no-op: no output is
produced, and the kernel state (delay-line contents, write cursors, LFO
phase) is unchanged. -/
theorem doRendering_empty_noop (k : Kernel) (p : Params) :
    doRendering k p [] = (k, []) := rfl

/-- C8: with `depth = 0` the center/variance derivation yields variance 0,
so in both single-tap and double-tap mode both the even and the odd tap
equal `delay * samplesPerMillisecond`, whatever the LFO phase. -/
theorem depth_zero_tap (lfo : LFO) (spm delay maxDelayMilliseconds : ℚ) :
    (calcSingleTap lfo spm (calcCenterVariance maxDelayMilliseconds delay 0).1
        (calcCenterVariance maxDelayMilliseconds delay 0).2).1 = delay * spm ∧
    (calcSingleTap lfo spm (calcCenterVariance maxDelayMilliseconds delay 0).1
        (calcCenterVariance maxDelayMilliseconds delay 0).2).2.1 = delay * spm ∧
    (calcDoubleTap lfo spm (calcCenterVariance maxDelayMilliseconds delay 0).1
        (calcCenterVariance maxDelayMilliseconds delay 0).2).1 = delay * spm ∧
    (calcDoubleTap lfo spm (calcCenterVariance maxDelayMilliseconds delay 0).1
        (calcCenterVariance maxDelayMilliseconds delay 0).2).2.1 = delay * spm := by
  refine ⟨?_, ?_, ?_, ?_⟩ <;> simp [calcSingleTap, calcDoubleTap, calcCenterVariance]

/-- C9: rendering is deterministic: starting from identical `configure`
arguments, identical parameter sequences and identical input blocks, two runs
produce identical outputs and identical final kernel state. -/
theorem rendering_deterministic (k : Kernel) (channelCount : Nat)
    (sampleRate maxDelayMilliseconds : ℚ)
    (calls1 calls2 : List (Params × List (List ℚ))) (h : calls1 = calls2) :
    renderSequence (configure k channelCount sampleRate maxDelayMilliseconds) calls1 =
      renderSequence (configure k channelCount sampleRate maxDelayMilliseconds) calls2 := by
  rw [h]

/-- C2: for every `delay ∈ [0, maxDelayMilliseconds]`, `depth ∈ [0, 1]` and
LFO value in `[−1, 1]`, the tap `(center + lfoValue * variance) * spm`
derived by `calcCenterVariance` lies in
`[0, maxDelayMilliseconds * spm]`: the sweep never exceeds the buffer
capacity. -/
theorem tap_bounds (maxDelayMilliseconds delay depth lfoValue spm : ℚ)
    (h1 : 0 ≤ delay) (h2 : delay ≤ maxDelayMilliseconds) (h3 : 0 ≤ depth)
    (h4 : depth ≤ 1) (h5 : -1 ≤ lfoValue) (h6 : lfoValue ≤ 1) (h7 : 0 ≤ spm) :
    (let cv := calcCenterVariance maxDelayMilliseconds delay depth
     let tap := (cv.1 + lfoValue * cv.2) * spm
     0 ≤ tap ∧ tap ≤ maxDelayMilliseconds * spm) := by
  simp only [calcCenterVariance]
  have hv : (0 : ℚ) ≤ (maxDelayMilliseconds - delay) * depth / 2 :=
    div_nonneg (mul_nonneg (by linarith) h3) (by norm_num)
  constructor
  · apply mul_nonneg _ h7
    nlinarith [mul_nonneg (by linarith : (0 : ℚ) ≤ 1 + lfoValue) hv]
  · apply mul_le_mul_of_nonneg_right _ h7
    nlinarith [mul_nonneg (by linarith : (0 : ℚ) ≤ 1 - lfoValue) hv,
      mul_nonneg (by linarith : (0 : ℚ) ≤ maxDelayMilliseconds - delay)
        (by linarith : (0 : ℚ) ≤ 1 - depth)]

/-- Witness for C2 at `maxDelayMilliseconds = 20`, `delay = 5`,
`depth = 1/2`, `lfoValue = 1/2`, `spm = 48`. -/
theorem tap_bounds_witness :
    (let cv := calcCenterVariance 20 5 (1/2)
     let tap := (cv.1 + (1/2) * cv.2) * 48
     0 ≤ tap ∧ tap ≤ 20 * 48) :=
  tap_bounds 20 5 (1/2) (1/2) 48 (by norm_num) (by norm_num) (by norm_num)
    (by norm_num) (by norm_num) (by norm_num) (by norm_num)

/-- C3: if every delay line is silent (as after `configure`) and every input
sample of the block is zero, every output sample is zero and every delay
line is still silent afterwards, for any parameters and block size. -/
theorem doRendering_silence (k : Kernel) (p : Params) (frames : List (List ℚ))
    (hl : ∀ line ∈ k.delayLines, line.IsZero)
    (hf : ∀ f ∈ frames, ∀ x ∈ f, x = 0) :
    (∀ out ∈ (doRendering k p frames).2, ∀ x ∈ out, x = 0) ∧
    (∀ line ∈ (doRendering k p frames).1.delayLines, line.IsZero) := by
  rw [doRendering_eq_renderLoop]
  have h := renderLoop_zero k.samplesPerMillisecond
    (calcCenterVariance k.maxDelayMilliseconds (blockScalars p frames.length).1
      (blockScalars p frames.length).2.1).1
    (calcCenterVariance k.maxDelayMilliseconds (blockScalars p frames.length).1
      (blockScalars p frames.length).2.1).2
    ((if p.negativeFeedback then (-1 : ℚ) else 1) * (blockScalars p frames.length).2.2.1)
    (blockScalars p frames.length).2.2.2.1 (blockScalars p frames.length).2.2.2.2
    p.odd90 k.delayLines k.lfo frames hl hf
  exact ⟨h.2, h.1⟩

/-- Witness for C3: a two-channel kernel with silent two-entry lines and a
two-frame silent block. -/
theorem doRendering_silence_witness :
    (∀ out ∈ (doRendering
        { samplesPerMillisecond := 48, maxDelayMilliseconds := 20,
          delayLines := [{ buffer := [0, 0], writeIndex := 0 },
                         { buffer := [0, 0], writeIndex := 0 }],
          lfo := { phase := 0, frequency := 1, sampleRate := 48000 } }
        { delay := ⟨5, 5⟩, depth := ⟨1/2, 1/2⟩, feedback := ⟨1/2, 1/2⟩,
          wetMix := ⟨1/2, 1/2⟩, dryMix := ⟨1/2, 1/2⟩,
          negativeFeedback := true, odd90 := true }
        [[0, 0], [0, 0]]).2, ∀ x ∈ out, x = 0) ∧
    (∀ line ∈ (doRendering
        { samplesPerMillisecond := 48, maxDelayMilliseconds := 20,
          delayLines := [{ buffer := [0, 0], writeIndex := 0 },
                         { buffer := [0, 0], writeIndex := 0 }],
          lfo := { phase := 0, frequency := 1, sampleRate := 48000 } }
        { delay := ⟨5, 5⟩, depth := ⟨1/2, 1/2⟩, feedback := ⟨1/2, 1/2⟩,
          wetMix := ⟨1/2, 1/2⟩, dryMix := ⟨1/2, 1/2⟩,
          negativeFeedback := true, odd90 := true }
        [[0, 0], [0, 0]]).1.delayLines, line.IsZero) :=
  doRendering_silence _ _ _ (by decide) (by decide)

theorem writeSample_dry (channel : Nat) (lines : List DelayLine) (frame : List ℚ)
    (e o fb : ℚ) (hlen : frame.length = lines.length) :
    (writeSample channel lines frame e o fb 0 1).2 = frame := by
  induction lines generalizing channel frame with
  | nil =>
    cases frame with
    | nil => rfl
    | cons x xs => simp at hlen
  | cons l ls ih =>
    cases frame with
    | nil => simp at hlen
    | cons x xs =>
      have h := ih (channel + 1) xs (by simpa using hlen)
      simp [writeSample, h]

theorem renderLoop_dry (spm c v fb : ℚ) (odd90 : Bool) (lines : List DelayLine)
    (lfo : LFO) (frames : List (List ℚ))
    (hlen : ∀ f ∈ frames, f.length = lines.length) :
    (renderLoop spm c v fb 0 1 odd90 lines lfo frames).2.2 = frames := by
  induction frames generalizing lines lfo with
  | nil => rfl
  | cons f rest ih =>
    have h1 := writeSample_dry 0 lines f
      (if odd90 then calcDoubleTap lfo spm c v else calcSingleTap lfo spm c v).1
      (if odd90 then calcDoubleTap lfo spm c v else calcSingleTap lfo spm c v).2.1
      fb (hlen f (by simp))
    have h2 := ih
      (writeSample 0 lines f
        (if odd90 then calcDoubleTap lfo spm c v else calcSingleTap lfo spm c v).1
        (if odd90 then calcDoubleTap lfo spm c v else calcSingleTap lfo spm c v).2.1
        fb 0 1).1
      (if odd90 then calcDoubleTap lfo spm c v else calcSingleTap lfo spm c v).2.2
      (fun g hg => by rw [writeSample_fst_length]; exact hlen g (by simp [hg]))
    simp [renderLoop, h1, h2]

/-- C4: with `wetMix = 0`, `dryMix = 1` and `feedback = 0`, every output
sample equals the corresponding input sample, for every block size and every
value of the remaining parameters (`rate`, `delay`, `depth`, `odd90`, ...),
as long as each frame carries one sample per configured channel. -/
theorem doRendering_dry_passthrough (k : Kernel) (p : Params) (frames : List (List ℚ))
    (hw : p.wetMix = ⟨0, 0⟩) (hd : p.dryMix = ⟨1, 1⟩) (hfb : p.feedback = ⟨0, 0⟩)
    (hlen : ∀ f ∈ frames, f.length = k.delayLines.length) :
    (doRendering k p frames).2 = frames := by
  rw [doRendering_eq_renderLoop]
  have hw1 : (blockScalars p frames.length).2.2.2.1 = 0 := by
    unfold blockScalars; split <;> simp [hw]
  have hd1 : (blockScalars p frames.length).2.2.2.2 = 1 := by
    unfold blockScalars; split <;> simp [hd]
  simp only [hw1, hd1]
  exact renderLoop_dry _ _ _ _ _ _ _ _ hlen

/-- Witness for C4: a one-channel kernel passing a three-frame block
through untouched. -/
theorem doRendering_dry_passthrough_witness :
    (doRendering
      { samplesPerMillisecond := 48, maxDelayMilliseconds := 20,
        delayLines := [{ buffer := [0, 0], writeIndex := 0 }],
        lfo := { phase := 0, frequency := 1, sampleRate := 48000 } }
      { delay := ⟨5, 5⟩, depth := ⟨1/2, 1/2⟩, feedback := ⟨0, 0⟩,
        wetMix := ⟨0, 0⟩, dryMix := ⟨1, 1⟩,
        negativeFeedback := true, odd90 := true }
      [[3], [-2], [7]]).2 = [[3], [-2], [7]] :=
  doRendering_dry_passthrough _ _ _ rfl rfl rfl (by decide)

/-- C5: a one-frame render call reads each scalar parameter through its
per-sample ramp accessor (`frameValue`) and a longer block reads each scalar
once through `finalValue`; in both regimes the `odd90` flag is read from its
immediate value.  Stated as observational dependency: two parameter records
agreeing on the accessors the regime reads (and on the booleans) render
identically. -/
theorem doRendering_regime_accessors (k : Kernel) (p q : Params)
    (frames : List (List ℚ))
    (hneg : p.negativeFeedback = q.negativeFeedback) (hodd : p.odd90 = q.odd90)
    (hscal : if frames.length = 1
      then p.delay.frameValue = q.delay.frameValue ∧
           p.depth.frameValue = q.depth.frameValue ∧
           p.feedback.frameValue = q.feedback.frameValue ∧
           p.wetMix.frameValue = q.wetMix.frameValue ∧
           p.dryMix.frameValue = q.dryMix.frameValue
      else p.delay.finalValue = q.delay.finalValue ∧
           p.depth.finalValue = q.depth.finalValue ∧
           p.feedback.finalValue = q.feedback.finalValue ∧
           p.wetMix.finalValue = q.wetMix.finalValue ∧
           p.dryMix.finalValue = q.dryMix.finalValue) :
    doRendering k p frames = doRendering k q frames := by
  have hs : blockScalars p frames.length = blockScalars q frames.length := by
    by_cases h : frames.length = 1
    · rw [if_pos h] at hscal
      obtain ⟨a, b, c, d, e⟩ := hscal
      simp only [blockScalars, if_pos h, a, b, c, d, e]
    · rw [if_neg h] at hscal
      obtain ⟨a, b, c, d, e⟩ := hscal
      simp only [blockScalars, if_neg h, a, b, c, d, e]
  rw [doRendering_eq_renderLoop, doRendering_eq_renderLoop]
  simp only [hs, hneg, hodd]

/-- Witness for C5: a one-frame block renders identically for two parameter
records that agree on all `frameValue`s and booleans but differ in every
`finalValue`. -/
theorem doRendering_regime_accessors_witness :
    doRendering
      { samplesPerMillisecond := 1, maxDelayMilliseconds := 10,
        delayLines := [{ buffer := [0, 0], writeIndex := 0 }],
        lfo := { phase := 0, frequency := 1, sampleRate := 1000 } }
      { delay := ⟨5, 7⟩, depth := ⟨0, 1⟩, feedback := ⟨0, 1⟩,
        wetMix := ⟨0, 1⟩, dryMix := ⟨1, 0⟩,
        negativeFeedback := false, odd90 := false }
      [[3]] =
    doRendering
      { samplesPerMillisecond := 1, maxDelayMilliseconds := 10,
        delayLines := [{ buffer := [0, 0], writeIndex := 0 }],
        lfo := { phase := 0, frequency := 1, sampleRate := 1000 } }
      { delay := ⟨5, 2⟩, depth := ⟨0, 1/2⟩, feedback := ⟨0, 1/3⟩,
        wetMix := ⟨0, 1/4⟩, dryMix := ⟨1, 1/5⟩,
        negativeFeedback := false, odd90 := false }
      [[3]] :=
  doRendering_regime_accessors _ _ _ _ rfl rfl (by decide)

/-- C7: `configure(channelCount, sampleRate, maxDelayMilliseconds)` allocates
exactly `channelCount` delay lines, each of capacity
`⌈maxDelayMilliseconds * samplesPerMillisecond⌉ + 1` with
`samplesPerMillisecond = sampleRate / 1000`, which is at least
`maxDelayMilliseconds * sampleRate / 1000 + 1` entries. -/
theorem configure_delayLines (k : Kernel) (channelCount : Nat)
    (sampleRate maxDelayMilliseconds : ℚ)
    (h1 : 0 ≤ sampleRate) (h2 : 0 ≤ maxDelayMilliseconds) :
    (configure k channelCount sampleRate maxDelayMilliseconds).delayLines.length =
      channelCount ∧
    ∀ line ∈ (configure k channelCount sampleRate maxDelayMilliseconds).delayLines,
      line.buffer.length = (⌈maxDelayMilliseconds * (sampleRate / 1000)⌉ + 1).toNat ∧
      maxDelayMilliseconds * sampleRate / 1000 + 1 ≤ (line.buffer.length : ℚ) := by
  constructor
  · simp [configure]
  · intro line hline
    simp only [configure, List.mem_replicate] at hline
    obtain ⟨-, rfl⟩ := hline
    have hy : (0 : ℚ) ≤ maxDelayMilliseconds * (sampleRate / 1000) :=
      mul_nonneg h2 (by positivity)
    have hceil : (0 : ℤ) ≤ ⌈maxDelayMilliseconds * (sampleRate / 1000)⌉ :=
      Int.ceil_nonneg hy
    have hlen : (DelayLine.allocate (maxDelayMilliseconds * (sampleRate / 1000) + 1)).buffer.length =
        (⌈maxDelayMilliseconds * (sampleRate / 1000)⌉ + 1).toNat := by
      simp [DelayLine.allocate, Int.ceil_add_one]
    refine ⟨hlen, ?_⟩
    rw [hlen]
    have hcast : (((⌈maxDelayMilliseconds * (sampleRate / 1000)⌉ + 1).toNat : ℕ) : ℚ) =
        ((⌈maxDelayMilliseconds * (sampleRate / 1000)⌉ : ℤ) : ℚ) + 1 := by
      have h0 : (0 : ℤ) ≤ ⌈maxDelayMilliseconds * (sampleRate / 1000)⌉ + 1 := by linarith
      have h3 := Int.toNat_of_nonneg h0
      exact_mod_cast congrArg (fun z : ℤ => (z : ℚ)) h3
    rw [hcast, mul_div_assoc]
    have := Int.le_ceil (maxDelayMilliseconds * (sampleRate / 1000))
    linarith

/-- Witness for C7 at `channelCount = 2`, `sampleRate = 48000`,
`maxDelayMilliseconds = 20`: two lines of `20 * 48 + 1 = 961` entries. -/
theorem configure_delayLines_witness :
    (configure
      { samplesPerMillisecond := 0, maxDelayMilliseconds := 0, delayLines := [],
        lfo := { phase := 0, frequency := 1, sampleRate := 0 } }
      2 48000 20).delayLines.length = 2 :=
  (configure_delayLines _ 2 48000 20 (by norm_num) (by norm_num)).1

theorem renderLoop_odd90_single (spm c v fb w d : ℚ) (lines : List DelayLine)
    (lfo : LFO) (frames : List (List ℚ)) (h : lines.length ≤ 1) :
    renderLoop spm c v fb w d true lines lfo frames =
      renderLoop spm c v fb w d false lines lfo frames := by
  induction frames generalizing lines lfo with
  | nil => rfl
  | cons f rest ih =>
    have heq : writeSample 0 lines f (calcDoubleTap lfo spm c v).1
        (calcDoubleTap lfo spm c v).2.1 fb w d =
        writeSample 0 lines f (calcSingleTap lfo spm c v).1
          (calcSingleTap lfo spm c v).2.1 fb w d :=
      writeSample_oddTap_irrelevant lines f _ _ _ fb w d h
    have hlen : (writeSample 0 lines f (calcSingleTap lfo spm c v).1
        (calcSingleTap lfo spm c v).2.1 fb w d).1.length ≤ 1 := by
      rw [writeSample_fst_length]; exact h
    have hrec := ih
      (writeSample 0 lines f (calcSingleTap lfo spm c v).1
        (calcSingleTap lfo spm c v).2.1 fb w d).1
      (calcSingleTap lfo spm c v).2.2 hlen
    have hl2 : (calcDoubleTap lfo spm c v).2.2 = (calcSingleTap lfo spm c v).2.2 := by
      simp only [calcDoubleTap, calcSingleTap]
    simp [renderLoop, heq, hl2, hrec]

/-- C10: on a kernel configured with a single channel, rendering with
`odd90 = true` produces exactly the same output and state as with
`odd90 = false`: only odd-indexed channels consume the odd tap, and
`calcDoubleTap` agrees with `calcSingleTap` on the even tap and advances the
LFO exactly once either way. -/
theorem mono_odd90_equivalent (k : Kernel) (p : Params) (frames : List (List ℚ))
    (c v : ℚ) (h : k.delayLines.length = 1) :
    doRendering k { p with odd90 := true } frames =
      doRendering k { p with odd90 := false } frames ∧
    (calcDoubleTap k.lfo k.samplesPerMillisecond c v).1 =
      (calcSingleTap k.lfo k.samplesPerMillisecond c v).1 ∧
    (calcDoubleTap k.lfo k.samplesPerMillisecond c v).2.2 =
      (calcSingleTap k.lfo k.samplesPerMillisecond c v).2.2 := by
  refine ⟨?_, by simp only [calcDoubleTap, calcSingleTap], by
    simp only [calcDoubleTap, calcSingleTap]⟩
  have hR := renderLoop_odd90_single k.samplesPerMillisecond
    (calcCenterVariance k.maxDelayMilliseconds (blockScalars p frames.length).1
      (blockScalars p frames.length).2.1).1
    (calcCenterVariance k.maxDelayMilliseconds (blockScalars p frames.length).1
      (blockScalars p frames.length).2.1).2
    ((if p.negativeFeedback then (-1 : ℚ) else 1) * (blockScalars p frames.length).2.2.1)
    (blockScalars p frames.length).2.2.2.1 (blockScalars p frames.length).2.2.2.2
    k.delayLines k.lfo frames (by rw [h])
  refine (doRendering_eq_renderLoop k { p with odd90 := true } frames).trans
    (Eq.trans ?_ (doRendering_eq_renderLoop k { p with odd90 := false } frames).symm)
  exact congrArg (fun r : List DelayLine × LFO × List (List ℚ) =>
    (({ k with delayLines := r.1, lfo := r.2.1 } : Kernel), r.2.2)) hR

/-- Witness for C10: a concrete one-channel kernel rendering a two-frame
block with nonzero depth, identical under either `odd90` setting. -/
theorem mono_odd90_equivalent_witness :
    doRendering
      { samplesPerMillisecond := 2, maxDelayMilliseconds := 10,
        delayLines := [{ buffer := [0, 0, 0], writeIndex := 0 }],
        lfo := { phase := 0, frequency := 1, sampleRate := 8 } }
      { delay := ⟨5, 5⟩, depth := ⟨1/2, 1/2⟩, feedback := ⟨1/2, 1/2⟩,
        wetMix := ⟨1/2, 1/2⟩, dryMix := ⟨1/2, 1/2⟩,
        negativeFeedback := false, odd90 := true }
      [[1], [2]] =
    doRendering
      { samplesPerMillisecond := 2, maxDelayMilliseconds := 10,
        delayLines := [{ buffer := [0, 0, 0], writeIndex := 0 }],
        lfo := { phase := 0, frequency := 1, sampleRate := 8 } }
      { delay := ⟨5, 5⟩, depth := ⟨1/2, 1/2⟩, feedback := ⟨1/2, 1/2⟩,
        wetMix := ⟨1/2, 1/2⟩, dryMix := ⟨1/2, 1/2⟩,
        negativeFeedback := false, odd90 := false }
      [[1], [2]] :=
  (mono_odd90_equivalent
    { samplesPerMillisecond := 2, maxDelayMilliseconds := 10,
      delayLines := [{ buffer := [0, 0, 0], writeIndex := 0 }],
      lfo := { phase := 0, frequency := 1, sampleRate := 8 } }
    { delay := ⟨5, 5⟩, depth := ⟨1/2, 1/2⟩, feedback := ⟨1/2, 1/2⟩,
      wetMix := ⟨1/2, 1/2⟩, dryMix := ⟨1/2, 1/2⟩,
      negativeFeedback := false, odd90 := false }
    [[1], [2]] 0 0 rfl).1

/-- Witness for C1: on a one-channel kernel with `wetMix = 0`, `dryMix = 1`,
frame 0 / channel 0 of a one-frame block renders the input sample `5`. -/
theorem doRendering_sample_formula_witness :
    ((doRendering
      { samplesPerMillisecond := 1, maxDelayMilliseconds := 10,
        delayLines := [{ buffer := [0, 0], writeIndex := 0 }],
        lfo := { phase := 0, frequency := 1, sampleRate := 1000 } }
      { delay := ⟨5, 5⟩, depth := ⟨0, 0⟩, feedback := ⟨0, 0⟩,
        wetMix := ⟨0, 0⟩, dryMix := ⟨1, 1⟩,
        negativeFeedback := false, odd90 := false }
      [[5]]).2.getD 0 []).getD 0 0 = 5 := by
  have h := (doRendering_sample_formula
    { samplesPerMillisecond := 1, maxDelayMilliseconds := 10,
      delayLines := [{ buffer := [0, 0], writeIndex := 0 }],
      lfo := { phase := 0, frequency := 1, sampleRate := 1000 } }
    { delay := ⟨5, 5⟩, depth := ⟨0, 0⟩, feedback := ⟨0, 0⟩,
      wetMix := ⟨0, 0⟩, dryMix := ⟨1, 1⟩,
      negativeFeedback := false, odd90 := false }
    [[5]] 0 0 (by decide) (by decide) (by decide)).1
  exact h.trans (by norm_num [blockScalars])

/-- Witness for C9: a concrete two-call render sequence replayed from the
same configuration is equal to itself. -/
theorem rendering_deterministic_witness :
    renderSequence
      (configure
        { samplesPerMillisecond := 0, maxDelayMilliseconds := 0, delayLines := [],
          lfo := { phase := 0, frequency := 2, sampleRate := 0 } }
        1 48000 20)
      [({ delay := ⟨5, 5⟩, depth := ⟨0, 0⟩, feedback := ⟨0, 0⟩,
          wetMix := ⟨1, 1⟩, dryMix := ⟨0, 0⟩,
          negativeFeedback := false, odd90 := false }, [[1], [0]])] =
    renderSequence
      (configure
        { samplesPerMillisecond := 0, maxDelayMilliseconds := 0, delayLines := [],
          lfo := { phase := 0, frequency := 2, sampleRate := 0 } }
        1 48000 20)
      [({ delay := ⟨5, 5⟩, depth := ⟨0, 0⟩, feedback := ⟨0, 0⟩,
          wetMix := ⟨1, 1⟩, dryMix := ⟨0, 0⟩,
          negativeFeedback := false, odd90 := false }, [[1], [0]])] :=
  rendering_deterministic _ 1 48000 20 _ _ rfl
